import Mathlib

/-!
Shallow embedding of `src/ui.rs` of tfex-rs: the rendering/layout engine that
turns a directory listing and UI state into a multi-column terminal display.

Machine integers are modelled as `Nat` with explicit wrap-around where the
source's `u16` arithmetic can overflow.  The `tui` crate's constraint solver
(computing pixel rectangles from percentage constraints) is external to this
repository and is not modelled; the render result keeps the text content that
the source hands to each `Paragraph`, which is what the claims are about.
-/

namespace TfexUi

/-- Embeds `tui::style::Color` (only the variants the source uses:
`Color::Red`, `Color::Indexed(_)`, and the default). -/
inductive Color where
  | Reset : Color
  | Red : Color
  | Indexed : Nat → Color
deriving DecidableEq

/-- Embeds the part of `tui::style::Style` the source sets:
`Style::default().modifier(Modifier::BOLD).fg(...)`. -/
structure Style where
  bold : Bool
  fg : Color
deriving DecidableEq

/-- Embeds `tui::widgets::Text`: either `Text::raw(string)` or
`Text::styled(string, style)`. -/
inductive Text where
  | Raw : String → Text
  | Styled : String → Style → Text
deriving DecidableEq

/-- Embeds `file_ops::DirectoryItem`: `File((path, size))` or
`Directory(path)` (ui.rs lines 81, 87). -/
inductive DirectoryItem where
  | File : String → Nat → DirectoryItem
  | Directory : String → DirectoryItem
deriving DecidableEq

/-- Embeds Rust's `str::split('/')` collected into a `Vec`, acting on the
character sequence: maximal runs between `'/'` separators, always at least
one (possibly empty) piece, e.g. `"" ↦ [""]`, `"a/" ↦ ["a", ""]`. -/
def splitOnSlash : List Char → List (List Char)
  | [] => [[]]
  | c :: rest =>
    let r := splitOnSlash rest
    if c = '/' then [] :: r
    else
      match r with
      | [] => [[c]]
      | s :: ss => (c :: s) :: ss

/-- Embeds lines 82-83 / 88-89: `path.split('/').collect()` followed by
`split[split.len() - 1]`.  The split result is non-empty, so taking the last
element is total (`getLastD` with an irrelevant default). -/
def lastSegment (path : String) : String :=
  String.mk ((splitOnSlash path.data).getLastD [])

/-- Embeds the formatting loop, ui.rs lines 79-94: one pass over `files`
pushing a name `Text` and a size `Text` per item, in input order.
File: name `"📄 {last}\n"`, size `"{size}KB\n"`;
Directory: name `"📁 {last}\n"`, size `"\n"`. -/
def formatEntries : List DirectoryItem → List Text × List Text
  | [] => ([], [])
  | item :: rest =>
    let tail := formatEntries rest
    match item with
    | DirectoryItem.File path size =>
        (Text.Raw ("📄 " ++ lastSegment path ++ "\n") :: tail.1,
         Text.Raw (toString size ++ "KB\n") :: tail.2)
    | DirectoryItem.Directory path =>
        (Text.Raw ("📁 " ++ lastSegment path ++ "\n") :: tail.1,
         Text.Raw "\n" :: tail.2)

/-- Embeds lines 99-103: `match ... { Text::Raw(value) => value, _ => "" }`. -/
def textContent : Text → String
  | Text.Raw s => s
  | Text.Styled _ _ => ""

/-- True exactly on `Text::Styled` values (the emphasized rendering). -/
def isStyled : Text → Bool
  | Text.Raw _ => false
  | Text.Styled _ _ => true

/-- Embeds lines 110-112: `Style::default().modifier(Modifier::BOLD).fg(Color::Indexed(2))`. -/
def selectedStyle : Style := ⟨true, Color.Indexed 2⟩

/-- Embeds the highlight step, ui.rs lines 97-116: read `names[i]` (Rust
indexing fails for `i ≥ names.len()`, modelled as `none`), then
`names.insert(i, styled)` followed by `names.remove(i + 1)`. -/
def highlight (names : List Text) (i : Nat) : Option (List Text) :=
  if h : i < names.length then
    let selected := textContent (names.get ⟨i, h⟩)
    some ((names.insertIdx i (Text.Styled selected selectedStyle)).eraseIdx (i + 1))
  else
    none

/-- Wrapping `u16` subtraction, for operands below `2^16` (release-build
semantics of Rust's `-` on `u16`). -/
def sub16 (a b : Nat) : Nat := (a + 65536 - b) % 65536

/-- Embeds `tui::layout::Rect` (cell coordinates, `u16` fields). -/
structure Rect where
  x : Nat
  y : Nat
  width : Nat
  height : Nat
deriving DecidableEq

/-- Embeds ui.rs line 69:
`Rect::new(area.x + 1, area.y + 1, area.width - 1, area.height - 1)`. -/
def inner_rect (area : Rect) : Rect :=
  ⟨area.x + 1, area.y + 1, sub16 area.width 1, sub16 area.height 1⟩

/-- Embeds ui.rs line 119:
`let columns: u16 = (names.len() as f32 / (area.height - 2) as f32).ceil() as u16;`
with `n` = `names.len()` and `h` = `area.height - 2`.
The `f32` computation is modelled exactly for `n ≤ 2^24` (both operands and
the quotient's ceiling are then exact in `f32`): for `h ≥ 1` the ceiling is
`(n + h - 1) / h`; for `n ≥ 1, h = 0` the division yields `+inf`; `0.0/0.0`
is NaN.  Rust's saturating float-to-int cast sends `+inf` to `65535`, NaN to
`0`, and clamps the finite ceiling into `[0, 65535]`. -/
def columnsCount (n h : Nat) : Nat :=
  if n = 0 then 0
  else if h = 0 then 65535
  else min ((n + h - 1) / h) 65535

/-- Definition following the spec's words only (section 4.2 step 3):
"Column count = `ceil(entries.len() / rows_per_column)`", written for
comparison against the source-derived `columnsCount`. -/
def spec_column_count (n h : Nat) : Nat := (n + h - 1) / h

/-- Embeds the per-column slice bounds of ui.rs lines 135-144 for column `i`
of a list `l`, where `n` is `names.len()` and `h` is `area.height - 2`:
`from = i * h`, `to = i * h + h` clamped by `if to >= names.len()`, then the
slice `l[from..to]`. -/
def sliceAt (h n : Nat) (l : List α) (i : Nat) : List α :=
  let lo := i * h
  let hi := if n ≤ i * h + h then n else i * h + h
  (l.drop lo).take (hi - lo)

/-- Embeds the column loop, ui.rs lines 134-163: for each
`i in 0..=columns-1`, the names slice and sizes slice rendered into column
`i` (both sliced with bounds computed from `names.len()`). -/
def columnSlices (h : Nat) (names sizes : List Text) : List (List Text × List Text) :=
  (List.range (columnsCount names.length h)).map
    (fun i => (sliceAt h names.length names i, sliceAt h names.length sizes i))

/-- The observable result of `draw_file_list`: the panel title and, per
column, the name texts and size texts handed to the two `Paragraph`s. -/
structure FileListRender where
  title : String
  columns : List (List Text × List Text)
deriving DecidableEq

/-- Embeds `draw_file_list`, ui.rs lines 60-165: draw the border with title
`"Contents─{current_dir}"`; if `files` is non-empty, format the entries,
apply the highlight step (whose out-of-range indexing is the one failure
point, modelled as `none`), then cut the texts into
`columnsCount`-many column slices. -/
def draw_file_list (area : Rect) (files : List DirectoryItem)
    (selected : Option Nat) (currentDir : String) : Option FileListRender :=
  let title := "Contents─" ++ currentDir
  if files.length ≠ 0 then
    let ns := (formatEntries files).1
    let ss := (formatEntries files).2
    let namesOpt := match selected with
      | some i => highlight ns i
      | none => some ns
    match namesOpt with
    | none => none
    | some names => some ⟨title, columnSlices (sub16 area.height 2) names ss⟩
  else
    some ⟨title, []⟩

/-- The footer widget rendered into the bottom chunk: its block title, its
text line, and the block's style color. -/
structure FooterBox where
  title : String
  text : Text
  borderColor : Color
deriving DecidableEq

/-- Embeds `draw_error`, ui.rs lines 175-189: red text, block titled
`"Error"` with red style. -/
def draw_error (err : String) : FooterBox :=
  ⟨"Error", Text.Styled err ⟨false, Color.Red⟩, Color.Red⟩

/-- Embeds `draw_command_buffer`, ui.rs lines 167-173: raw command text in a
block titled `"Command"` with default style. -/
def draw_command_buffer (cmd : String) : FooterBox :=
  ⟨"Command", Text.Raw cmd, Color.Reset⟩

/-- The application state the footer logic of `draw` reads and writes:
`app.error` and the command buffer string. -/
structure AppState where
  error : Option String
  commandString : String
deriving DecidableEq

/-- Embeds the footer logic of `draw`, ui.rs lines 43-55: if `error` is set,
render the error box and (after the fixed delay, not modelled) clear
`app.error`; otherwise render the command buffer and leave the state
unchanged.  Returns the rendered footer and the post-draw state. -/
def draw (s : AppState) : FooterBox × AppState :=
  match s.error with
  | some err => (draw_error err, { s with error := none })
  | none => (draw_command_buffer s.commandString, s)

/-! ### Basic facts about the formatter -/

theorem formatEntries_fst_length (files : List DirectoryItem) :
    (formatEntries files).1.length = files.length := by
  induction files with
  | nil => rfl
  | cons item rest ih => cases item <;> simp [formatEntries, ih]

theorem formatEntries_snd_length (files : List DirectoryItem) :
    (formatEntries files).2.length = files.length := by
  induction files with
  | nil => rfl
  | cons item rest ih => cases item <;> simp [formatEntries, ih]

theorem formatEntries_fst_raw (files : List DirectoryItem) :
    ∀ t ∈ (formatEntries files).1, isStyled t = false := by
  induction files with
  | nil => intro t ht; simp [formatEntries] at ht
  | cons item rest ih =>
    intro t ht
    cases item <;> simp [formatEntries] at ht <;>
      rcases ht with h | h <;> first | (subst h; rfl) | exact ih t h

/-! ### Arithmetic facts about the column count -/

theorem columnsCount_eq_spec (n h : Nat) (hn : n ≠ 0) (hh : h ≠ 0)
    (hsat : spec_column_count n h ≤ 65535) :
    columnsCount n h = spec_column_count n h := by
  simp only [columnsCount, spec_column_count] at *
  rw [if_neg hn, if_neg hh, Nat.min_eq_left hsat]

theorem le_spec_column_count_mul (n h : Nat) (hh : 1 ≤ h) :
    n ≤ spec_column_count n h * h := by
  have hdm := Nat.div_add_mod (n + h - 1) h
  have hml : (n + h - 1) % h < h := Nat.mod_lt _ (by omega)
  simp only [spec_column_count]
  rw [Nat.mul_comm]
  generalize h * ((n + h - 1) / h) = A at hdm ⊢
  omega

theorem mul_lt_of_lt_spec_column_count (n h k : Nat) (hh : 1 ≤ h)
    (hk : k < spec_column_count n h) : k * h < n := by
  have hmul : (k + 1) * h ≤ n + h - 1 :=
    (Nat.le_div_iff_mul_le (by omega)).mp hk
  have hsm : (k + 1) * h = k * h + h := by ring
  rw [hsm] at hmul
  generalize k * h = A at hmul ⊢
  omega

/-! ### Coverage of the per-column slices -/

theorem flatten_slices {α : Type} (l : List α) (n h : Nat) (_hl : l.length = n)
    (hh : 1 ≤ h) (k : Nat) (hk : k ≤ spec_column_count n h) :
    ((List.range k).map (sliceAt h n l)).flatten = l.take (min (k * h) n) := by
  induction k with
  | zero => simp
  | succ k ih =>
    have hklt : k < spec_column_count n h := hk
    have hkh : k * h < n := mul_lt_of_lt_spec_column_count n h k hh hklt
    rw [List.range_succ, List.map_append, List.map_cons, List.map_nil,
      List.flatten_concat, ih (le_of_lt hklt)]
    have hsm : (k + 1) * h = k * h + h := by ring
    rw [hsm, Nat.min_eq_left (le_of_lt hkh)]
    simp only [sliceAt]
    by_cases hc : n ≤ k * h + h
    · rw [if_pos hc, Nat.min_eq_right hc, ← List.take_add]
      congr 1
      omega
    · rw [if_neg hc, Nat.min_eq_left (by omega), ← List.take_add]
      congr 1
      omega

theorem flatten_slices_all {α : Type} (l : List α) (n h : Nat) (hl : l.length = n)
    (hh : 1 ≤ h) :
    ((List.range (spec_column_count n h)).map (sliceAt h n l)).flatten = l := by
  rw [flatten_slices l n h hl hh _ (le_refl _),
    Nat.min_eq_right (le_spec_column_count_mul n h hh), ← hl, List.take_length]

/-- Claim C1 (amended): for a non-empty entry list, a viewport whose usable
height `area.height - 2` is at least 1, an entry count within the `f32`-exact
range (`≤ 2^24`), and a column count that does not saturate the `u16` cast
(`ceil(len / rows) ≤ 65535`), `draw_file_list` succeeds and concatenating the
per-column name slices (and size slices) in column order reconstructs the
formatted entry sequence exactly: no entry is duplicated or omitted. -/
theorem draw_file_list_slices_cover (area : Rect) (files : List DirectoryItem)
    (dir : String) (hne : files ≠ [])
    (hh : 1 ≤ sub16 area.height 2)
    (_h24 : files.length ≤ 16777216)
    (hsat : spec_column_count files.length (sub16 area.height 2) ≤ 65535) :
    ∃ r, draw_file_list area files none dir = some r ∧
      (r.columns.map Prod.fst).flatten = (formatEntries files).1 ∧
      (r.columns.map Prod.snd).flatten = (formatEntries files).2 := by
  have hlen : files.length ≠ 0 := by
    intro h0
    exact hne (List.length_eq_zero.mp h0)
  refine ⟨⟨"Contents─" ++ dir, columnSlices (sub16 area.height 2)
    (formatEntries files).1 (formatEntries files).2⟩, ?_, ?_, ?_⟩
  · simp [draw_file_list, hlen]
  · simp only [columnSlices, List.map_map, Function.comp_def, formatEntries_fst_length,
      columnsCount_eq_spec files.length (sub16 area.height 2) hlen (by omega) hsat]
    exact flatten_slices_all (formatEntries files).1 files.length _
      (formatEntries_fst_length files) hh
  · simp only [columnSlices, List.map_map, Function.comp_def, formatEntries_fst_length,
      columnsCount_eq_spec files.length (sub16 area.height 2) hlen (by omega) hsat]
    exact flatten_slices_all (formatEntries files).2 files.length _
      (formatEntries_snd_length files) hh

/-- Witness for C1: two entries, viewport height 5 (usable 3), one column. -/
theorem draw_file_list_slices_cover_witness :
    ∃ r, draw_file_list ⟨0, 0, 20, 5⟩
        [DirectoryItem.Directory "/home/u/docs", DirectoryItem.File "/home/u/a.txt" 4]
        none "/home/u" = some r ∧
      (r.columns.map Prod.fst).flatten =
        (formatEntries [DirectoryItem.Directory "/home/u/docs",
          DirectoryItem.File "/home/u/a.txt" 4]).1 ∧
      (r.columns.map Prod.snd).flatten =
        (formatEntries [DirectoryItem.Directory "/home/u/docs",
          DirectoryItem.File "/home/u/a.txt" 4]).2 :=
  draw_file_list_slices_cover ⟨0, 0, 20, 5⟩
    [DirectoryItem.Directory "/home/u/docs", DirectoryItem.File "/home/u/a.txt" 4]
    "/home/u" (by decide) (by decide) (by decide) (by decide)

/-- Counterexample to C1 as stated: with 65536 entries and usable height 1
(viewport height 3), the saturating `u16` cast caps the column count at
65535, so the concatenation of all column slices has only 65535 entries and
the last entry is omitted. -/
theorem slices_cover_cex :
    ((columnSlices 1 (List.replicate 65536 (Text.Raw "x"))
        (List.replicate 65536 (Text.Raw "x"))).map Prod.fst).flatten ≠
      List.replicate 65536 (Text.Raw "x") := by
  intro heq
  have hlen := congrArg List.length heq
  rw [List.length_flatten, List.length_replicate] at hlen
  have hcc : columnsCount (List.replicate 65536 (Text.Raw "x")).length 1 = 65535 := by
    rw [List.length_replicate]
    decide
  rw [columnSlices, hcc, List.length_replicate, List.map_map, List.map_map] at hlen
  have hone : ∀ i ∈ List.range 65535,
      ((List.length ∘ Prod.fst) ∘ fun i =>
        (sliceAt 1 65536 (List.replicate 65536 (Text.Raw "x")) i,
         sliceAt 1 65536 (List.replicate 65536 (Text.Raw "x")) i)) i = 1 := by
    intro i hi
    rw [List.mem_range] at hi
    simp only [Function.comp_apply, sliceAt, Nat.mul_one]
    rw [if_neg (by omega), List.length_take, List.length_drop, List.length_replicate]
    omega
  rw [List.map_congr_left hone, List.map_const', List.length_range] at hlen
  have hsum : (List.replicate 65535 (1 : Nat)).sum = 65535 := by
    rw [List.sum_replicate, smul_eq_mul, Nat.mul_one]
  omega

/-! ### The highlight step -/

theorem insertIdx_eraseIdx {α : Type} (xs : List α) (i : Nat) (x : α)
    (h : i < xs.length) :
    (xs.insertIdx i x).eraseIdx (i + 1) = xs.set i x := by
  induction xs generalizing i with
  | nil => simp at h
  | cons a t ih =>
    cases i with
    | zero => simp [List.insertIdx]
    | succ j =>
      rw [List.insertIdx_succ_cons, List.eraseIdx_cons_succ, List.set_cons_succ,
        ih j (by simpa using h)]

theorem countP_set_styled (l : List Text) (i : Nat) (x : Text)
    (hi : i < l.length) (hall : ∀ t ∈ l, isStyled t = false)
    (hx : isStyled x = true) :
    (l.set i x).countP isStyled = 1 := by
  induction l generalizing i with
  | nil => simp at hi
  | cons a t ih =>
    cases i with
    | zero =>
      have ht : t.countP isStyled = 0 := by
        rw [List.countP_eq_zero]
        intro u hu
        simp [hall u (List.mem_cons_of_mem a hu)]
      simp [List.countP_cons, ht, hx]
    | succ j =>
      have ha : isStyled a = false := hall a (List.mem_cons_self a t)
      rw [List.set_cons_succ, List.countP_cons,
        ih j (by simpa using hi) (fun u hu => hall u (List.mem_cons_of_mem a hu))]
      simp [ha]

/-- Claim C2: for a non-empty entry list and a valid selection index `i`, the
highlight step succeeds and produces a list of unchanged length in which
exactly one text is styled; that text sits at the flat index `i`, carries the
bold accent style, and holds the content of the originally formatted entry at
`i`; every other position is unchanged (hence plain). -/
theorem highlight_single_emphasis (files : List DirectoryItem) (i : Nat)
    (_hne : files ≠ []) (hi : i < files.length) :
    ∃ out, highlight (formatEntries files).1 i = some out ∧
      out.length = files.length ∧
      out.countP isStyled = 1 ∧
      (∀ j, j ≠ i → out[j]? = (formatEntries files).1[j]?) ∧
      ∃ t, (formatEntries files).1[i]? = some t ∧ isStyled t = false ∧
        out[i]? = some (Text.Styled (textContent t) selectedStyle) := by
  have hlen : (formatEntries files).1.length = files.length :=
    formatEntries_fst_length files
  have hi' : i < (formatEntries files).1.length := by omega
  have hx : highlight (formatEntries files).1 i =
      some ((formatEntries files).1.set i
        (Text.Styled (textContent ((formatEntries files).1.get ⟨i, hi'⟩))
          selectedStyle)) := by
    rw [highlight, dif_pos hi']
    dsimp only
    rw [insertIdx_eraseIdx _ _ _ hi']
  refine ⟨_, hx, ?_, ?_, ?_, ?_⟩
  · rw [List.length_set, hlen]
  · exact countP_set_styled _ i _ hi' (formatEntries_fst_raw files) rfl
  · intro j hj
    exact List.getElem?_set_ne (fun hij => hj hij.symm)
  · refine ⟨(formatEntries files).1.get ⟨i, hi'⟩, ?_, ?_, ?_⟩
    · rw [List.get_eq_getElem, List.getElem?_eq_getElem hi']
    · exact formatEntries_fst_raw files _ (List.get_mem _ _ hi')
    · exact List.getElem?_set_self hi'

/-- Witness for C2: two entries, selection index 1. -/
theorem highlight_single_emphasis_witness :
    ∃ out, highlight (formatEntries [DirectoryItem.Directory "/home/u/docs",
        DirectoryItem.File "/home/u/a.txt" 4]).1 1 = some out ∧
      out.length = ([DirectoryItem.Directory "/home/u/docs",
        DirectoryItem.File "/home/u/a.txt" 4] : List DirectoryItem).length ∧
      out.countP isStyled = 1 ∧
      (∀ j, j ≠ 1 → out[j]? = (formatEntries [DirectoryItem.Directory "/home/u/docs",
        DirectoryItem.File "/home/u/a.txt" 4]).1[j]?) ∧
      ∃ t, (formatEntries [DirectoryItem.Directory "/home/u/docs",
          DirectoryItem.File "/home/u/a.txt" 4]).1[1]? = some t ∧
        isStyled t = false ∧
        out[1]? = some (Text.Styled (textContent t) selectedStyle) :=
  highlight_single_emphasis
    [DirectoryItem.Directory "/home/u/docs", DirectoryItem.File "/home/u/a.txt" 4]
    1 (by decide) (by decide)

/-- Claim C8: for the empty entry list, `draw_file_list` renders only the
border with title `"Contents─{current_path}"` and zero columns, for every
viewport and selection value, without failing. -/
theorem draw_empty_dir (area : Rect) (selected : Option Nat) (dir : String) :
    draw_file_list area [] selected dir = some ⟨"Contents─" ++ dir, []⟩ := by
  simp [draw_file_list]

/-- Claim C10: with a non-empty entry list and a selection index at or beyond
the entry count, the highlight step's `names[selection_index]` indexing is
out of range, so `draw_file_list` fails fast (modelled as `none`) instead of
silently skipping emphasis. -/
theorem draw_oob_selection (area : Rect) (files : List DirectoryItem) (i : Nat)
    (dir : String) (hne : files ≠ []) (hoob : files.length ≤ i) :
    draw_file_list area files (some i) dir = none := by
  have hlen : files.length ≠ 0 := fun h0 => hne (List.length_eq_zero.mp h0)
  have hnlt : ¬ i < (formatEntries files).1.length := by
    rw [formatEntries_fst_length]
    omega
  simp [draw_file_list, hlen, highlight, hnlt]

/-- Witness for C10: one entry, selection index 1. -/
theorem draw_oob_selection_witness :
    draw_file_list ⟨0, 0, 10, 5⟩ [DirectoryItem.Directory "d"] (some 1) "p" = none :=
  draw_oob_selection ⟨0, 0, 10, 5⟩ [DirectoryItem.Directory "d"] 1 "p"
    (by decide) (by decide)

/-! ### The formatter, per index -/

theorem formatEntries_file_getElem (files : List DirectoryItem) (i : Nat)
    (p : String) (s : Nat) (hps : files[i]? = some (DirectoryItem.File p s)) :
    (formatEntries files).1[i]? = some (Text.Raw ("📄 " ++ lastSegment p ++ "\n")) ∧
    (formatEntries files).2[i]? = some (Text.Raw (toString s ++ "KB\n")) := by
  induction files generalizing i with
  | nil => simp at hps
  | cons item rest ih =>
    cases i with
    | zero =>
      simp only [List.getElem?_cons_zero, Option.some_inj] at hps
      subst hps
      simp [formatEntries]
    | succ j =>
      simp only [List.getElem?_cons_succ] at hps
      have hj := ih j hps
      cases item <;> simp only [formatEntries, List.getElem?_cons_succ] <;> exact hj

theorem formatEntries_dir_getElem (files : List DirectoryItem) (i : Nat)
    (p : String) (hps : files[i]? = some (DirectoryItem.Directory p)) :
    (formatEntries files).1[i]? = some (Text.Raw ("📁 " ++ lastSegment p ++ "\n")) ∧
    (formatEntries files).2[i]? = some (Text.Raw "\n") := by
  induction files generalizing i with
  | nil => simp at hps
  | cons item rest ih =>
    cases i with
    | zero =>
      simp only [List.getElem?_cons_zero, Option.some_inj] at hps
      subst hps
      simp [formatEntries]
    | succ j =>
      simp only [List.getElem?_cons_succ] at hps
      have hj := ih j hps
      cases item <;> simp only [formatEntries, List.getElem?_cons_succ] <;> exact hj

/-- Claim C3 (amended): the formatter keeps output order 1:1 with input
order, and at each index produces, for a `File`, the label
`"📄 " ++ last segment ++ "\n"` and size label `"{size}KB\n"`, and for a
`Directory` the label `"📁 " ++ last segment ++ "\n"` and size label `"\n"`;
every pushed text carries a trailing newline terminator. -/
theorem format_entries_labels (files : List DirectoryItem) (i : Nat) :
    ((formatEntries files).1.length = files.length ∧
      (formatEntries files).2.length = files.length) ∧
    (∀ p s, files[i]? = some (DirectoryItem.File p s) →
      (formatEntries files).1[i]? = some (Text.Raw ("📄 " ++ lastSegment p ++ "\n")) ∧
      (formatEntries files).2[i]? = some (Text.Raw (toString s ++ "KB\n"))) ∧
    (∀ p, files[i]? = some (DirectoryItem.Directory p) →
      (formatEntries files).1[i]? = some (Text.Raw ("📁 " ++ lastSegment p ++ "\n")) ∧
      (formatEntries files).2[i]? = some (Text.Raw "\n")) :=
  ⟨⟨formatEntries_fst_length files, formatEntries_snd_length files⟩,
    fun p s hps => formatEntries_file_getElem files i p s hps,
    fun p hps => formatEntries_dir_getElem files i p hps⟩

/-- Witness for C3: spec section 8 example 6, index 1 (`File "/home/u/a.txt" 4`). -/
theorem format_entries_labels_witness :
    (formatEntries [DirectoryItem.Directory "/home/u/docs",
        DirectoryItem.File "/home/u/a.txt" 4]).1[1]? =
      some (Text.Raw ("📄 " ++ lastSegment "/home/u/a.txt" ++ "\n")) ∧
    (formatEntries [DirectoryItem.Directory "/home/u/docs",
        DirectoryItem.File "/home/u/a.txt" 4]).2[1]? =
      some (Text.Raw (toString 4 ++ "KB\n")) :=
  (format_entries_labels [DirectoryItem.Directory "/home/u/docs",
    DirectoryItem.File "/home/u/a.txt" 4] 1).2.1 "/home/u/a.txt" 4 (by decide)

/-- Counterexample to C3 as stated: the size text pushed for
`File "/home/u/a.txt" 4` is `"4KB\n"`, not exactly `"4KB"`, and the size
text pushed for a directory is `"\n"`, not the empty string. -/
theorem format_entries_cex :
    (formatEntries [DirectoryItem.File "/home/u/a.txt" 4]).2 = [Text.Raw "4KB\n"] ∧
    Text.Raw "4KB\n" ≠ Text.Raw "4KB" ∧
    (formatEntries [DirectoryItem.Directory "/home/u/docs"]).2 = [Text.Raw "\n"] ∧
    Text.Raw "\n" ≠ Text.Raw "" := by decide

/-! ### Degenerate usable height -/

/-- Counterexample to C4 as stated: at viewport height 2 the usable height
`area.height - 2` is 0, and the layout computation uses it as-is — the column
count saturates at 65535 instead of the claimed clamp to 1 row (which would
give 1 column for 1 entry). -/
theorem rows_clamp_cex :
    sub16 2 2 = 0 ∧ columnsCount 1 (sub16 2 2) = 65535 ∧
    columnsCount 1 1 = 1 := by decide

/-- Claim C4 (amended): the code performs no clamping.  With viewport height
2 (usable height 0) and a non-empty entry list, the `f32` division by zero
yields `+inf`, the saturating cast yields 65535 columns, and every column
receives an empty slice; `draw_file_list` still completes without failing,
rendering border, title and empty columns. -/
theorem draw_height_two (area : Rect) (files : List DirectoryItem) (dir : String)
    (hne : files ≠ []) (hh : area.height = 2) :
    draw_file_list area files none dir =
      some ⟨"Contents─" ++ dir, List.replicate 65535 ([], [])⟩ := by
  have hlen : files.length ≠ 0 := fun h0 => hne (List.length_eq_zero.mp h0)
  have h0 : sub16 area.height 2 = 0 := by rw [hh]; decide
  have hn1 : (formatEntries files).1.length ≠ 0 := by
    rw [formatEntries_fst_length]
    exact hlen
  have hcc : columnsCount (formatEntries files).1.length 0 = 65535 := by
    rw [columnsCount, if_neg hn1, if_pos rfl]
  have hslice : ∀ i ∈ List.range 65535,
      (fun i => (sliceAt 0 (formatEntries files).1.length (formatEntries files).1 i,
        sliceAt 0 (formatEntries files).1.length (formatEntries files).2 i)) i =
      (([] : List Text), ([] : List Text)) := by
    intro i _
    have hcond : ¬ ((formatEntries files).1.length ≤ i * 0 + 0) := by
      simp only [Nat.mul_zero, Nat.add_zero]
      omega
    simp only [sliceAt, if_neg hcond]
    simp
  simp only [draw_file_list, if_pos hlen, columnSlices, h0, hcc,
    List.map_congr_left hslice, List.map_const', List.length_range]

/-- Witness for C4 (amended): one entry, viewport height 2. -/
theorem draw_height_two_witness :
    draw_file_list ⟨0, 0, 10, 2⟩ [DirectoryItem.Directory "d"] none "p" =
      some ⟨"Contents─p", List.replicate 65535 ([], [])⟩ :=
  draw_height_two ⟨0, 0, 10, 2⟩ [DirectoryItem.Directory "d"] "p" (by decide) rfl

/-! ### Column count: value and monotonicity -/

/-- Counterexample to C5 as stated: with 65536 entries and 1 usable row the
code's column count is 65535 (saturating `u16` cast), not
`ceil(65536 / 1) = 65536`. -/
theorem column_count_cex :
    columnsCount 65536 1 = 65535 ∧ spec_column_count 65536 1 = 65536 ∧
    columnsCount 65536 1 ≠ spec_column_count 65536 1 := by decide

/-- Claim C5 (amended): for a non-empty entry list, usable height ≥ 1, entry
count within the `f32`-exact range (`≤ 2^24`) and a non-saturating ceiling
(`ceil(n / rows) ≤ 65535`), the computed column count equals
`ceil(n / rows_per_column)` and is at least 1; in particular 25 entries with
10 usable rows yield 3 columns. -/
theorem column_count_correct (n h : Nat) (hn : 1 ≤ n) (hh : 1 ≤ h)
    (_h24 : n ≤ 16777216) (hsat : spec_column_count n h ≤ 65535) :
    columnsCount n h = spec_column_count n h ∧ 1 ≤ columnsCount n h ∧
    columnsCount 25 10 = 3 := by
  have heq := columnsCount_eq_spec n h (by omega) (by omega) hsat
  refine ⟨heq, ?_, by decide⟩
  rw [heq, spec_column_count]
  exact (Nat.le_div_iff_mul_le (by omega)).mpr (by omega)

/-- Witness for C5 (amended): 25 entries, 10 usable rows. -/
theorem column_count_correct_witness :
    columnsCount 25 10 = spec_column_count 25 10 ∧ 1 ≤ columnsCount 25 10 ∧
    columnsCount 25 10 = 3 :=
  column_count_correct 25 10 (by decide) (by decide) (by decide) (by decide)

/-- Claim C9: for a fixed viewport height `v` (hence fixed
`rows_per_column = v - 2`), the column count is monotone non-decreasing in
the entry count. -/
theorem column_count_mono (v n m : Nat) (hnm : n ≤ m) :
    columnsCount n (sub16 v 2) ≤ columnsCount m (sub16 v 2) := by
  generalize sub16 v 2 = h
  rcases Nat.eq_zero_or_pos n with hn | hn
  · subst hn
    simp [columnsCount]
  · have hn' : n ≠ 0 := by omega
    have hm : m ≠ 0 := by omega
    by_cases hh : h = 0
    · simp [columnsCount, hn', hm, hh]
    · simp only [columnsCount, if_neg hn', if_neg hm, if_neg hh]
      exact min_le_min (Nat.div_le_div_right (by omega)) (le_refl _)

/-- Witness for C9: 3 vs 25 entries at viewport height 12. -/
theorem column_count_mono_witness :
    columnsCount 3 (sub16 12 2) ≤ columnsCount 25 (sub16 12 2) :=
  column_count_mono 12 3 25 (by decide)

/-! ### The interior rectangle -/

/-- Claim C6, evaluated at the failing input: for the outer rectangle
`{0, 0, 10, 10}` the code computes the interior `{1, 1, 9, 9}`
(`width - 1`, `height - 1`), not the claimed 1-cell inset on every side
`{1, 1, 8, 8}` — the text area's right and bottom edges coincide with the
outer rectangle's, overlapping the border. -/
theorem inner_rect_overlaps_border :
    inner_rect ⟨0, 0, 10, 10⟩ = ⟨1, 1, 9, 9⟩ ∧
    inner_rect ⟨0, 0, 10, 10⟩ ≠ ⟨1, 1, 8, 8⟩ := by decide

/-! ### Footer state transition -/

/-- Claim C7: if the error field is set, the current cycle renders the ERROR
box (title `"Error"`, red border, the message) and leaves the error field
cleared, so the following cycle renders the COMMAND box; if the error field
is empty, the footer renders the command buffer and the state is unchanged. -/
theorem footer_transition (s : AppState) :
    (∀ e, s.error = some e →
      (draw s).1 = draw_error e ∧ (draw s).1.title = "Error" ∧
      (draw s).1.borderColor = Color.Red ∧ (draw s).2.error = none ∧
      (draw (draw s).2).1 = draw_command_buffer (draw s).2.commandString ∧
      (draw (draw s).2).1.title = "Command") ∧
    (s.error = none →
      (draw s).1 = draw_command_buffer s.commandString ∧ (draw s).2 = s) := by
  constructor
  · intro e he
    simp [draw, he, draw_error, draw_command_buffer]
  · intro he
    simp [draw, he]

/-- Witness for C7: error `"boom"` set, command buffer `"ls"`. -/
theorem footer_transition_witness :
    (draw ⟨some "boom", "ls"⟩).1.title = "Error" ∧
    (draw ⟨some "boom", "ls"⟩).2.error = none ∧
    (draw (draw ⟨some "boom", "ls"⟩).2).1.title = "Command" ∧
    (draw ⟨none, "ls"⟩).1 = draw_command_buffer "ls" := by
  have h1 := (footer_transition ⟨some "boom", "ls"⟩).1 "boom" rfl
  have h2 := (footer_transition ⟨none, "ls"⟩).2 rfl
  exact ⟨h1.2.1, h1.2.2.2.1, h1.2.2.2.2.2, h2.1⟩

end TfexUi
